import Mathlib

/- Verification development for the hybrid retrieval engine of the
   Chandigarh Policy Assistant repository.

   The Python sources are shallowly embedded in Lean: pure functions become
   Lean functions, the NLTK tokenizer, the OpenAI embedding client, the
   Pinecone vector store and the pickle loader become explicit oracles
   passed as arguments, machine floats become rationals, and exceptions
   become sum types.  The fusion engine and the query cache live in the
   module performance_fix_hybrid_search, which is referenced by five call
   sites of the repository but whose implementation file is not part of the
   sources; those two components are modelled from the specification and
   are marked as such in their doc comments. -/

/-- Python JSON-like values: the result dictionaries built by the servers.
    A value is a string, a number, or a dictionary with string keys. -/
inductive PyVal where
  | str (s : String)
  | num (q : ℚ)
  | dict (fields : List (String × PyVal))

/-- Keys of a dictionary value (scalars have none). -/
def topKeys : PyVal → List String
  | .dict fs => fs.map Prod.fst
  | _ => []

/-- All keys appearing at the top level of a result entry or one level
    below it (inside a nested dictionary such as the metadata map). -/
def entryKeys : PyVal → List String
  | .dict fs => fs.map Prod.fst ++ (fs.map (fun p => topKeys p.snd)).flatten
  | v => topKeys v

/-- A result entry carries a degraded-source marker when some key of the
    entry, at the top level or inside its metadata dictionary, is a key
    other than the plain payload keys metadata, score and content. -/
def taggedWithMarker (e : PyVal) : Prop :=
  ∃ key ∈ entryKeys e, key ≠ "metadata" ∧ key ≠ "score" ∧ key ≠ "content"

instance (e : PyVal) : Decidable (taggedWithMarker e) := by
  unfold taggedWithMarker; infer_instance

/-- Oracle for the NLTK runtime used by preprocess_text: the word tokenizer
    applied to a text and the english stopword list, each of which can fail
    (for example with LookupError when language resources are missing). -/
structure NltkEnv where
  tokenize : String → Except String (List String)
  stopwordsResult : Except String (List String)

/-- Python str.isalnum: the string is nonempty and all characters are
    alphanumeric. -/
def isAlnumTok (s : String) : Bool :=
  !s.isEmpty && s.toList.all Char.isAlphanum

/-- Python str.split with no argument: split on whitespace runs, dropping
    empty pieces. -/
def pySplit (s : String) : List String :=
  (s.split Char.isWhitespace).filter (fun t => !t.isEmpty)

/-- Python str.strip with no argument on a character list: drop whitespace
    from both ends. -/
def stripChars (l : List Char) : List Char :=
  ((l.dropWhile Char.isWhitespace).reverse.dropWhile Char.isWhitespace).reverse

/-- Python str.strip with no argument. -/
def pyStrip (s : String) : String :=
  String.mk (stripChars s.toList)

/-- Embedding of preprocess_text of lightweight_production_server.py.
    On the success path NLTK tokenizes the lowercased text and the tokens
    are filtered to alphanumeric non-stopwords; if the tokenizer or the
    stopword list fails, the except branch falls back to a naive
    whitespace split of the lowercased text. -/
def preprocess_text (env : NltkEnv) (text : String) : List String :=
  match env.stopwordsResult, env.tokenize text.toLower with
  | .ok stops, .ok toks =>
      toks.filter (fun t => isAlnumTok t && !(stops.contains t))
  | _, _ => pySplit text.toLower

/-- State of a loaded rank_bm25 BM25Okapi object: the tokenized corpus and
    the idf weight of each term.  The library computes the idf weights from
    corpus document frequencies using natural logarithms; the weights are
    kept as an abstract field of the state since no claim depends on their
    numeric values, only on the term-frequency factor of the score. -/
structure BM25State where
  corpus : List (List String)
  idf : String → ℚ

/-- The k1 parameter of rank_bm25 BM25Okapi. -/
def bm25K1 : ℚ := 3 / 2

/-- The b parameter of rank_bm25 BM25Okapi. -/
def bm25B : ℚ := 3 / 4

/-- Average document length of the corpus. -/
def avgdl (corpus : List (List String)) : ℚ :=
  (corpus.map (fun d => (d.length : ℚ))).sum / (corpus.length : ℚ)

/-- One term of the BM25Okapi score: idf times the saturated
    term-frequency factor. -/
def bm25TermScore (idf tf dl adl : ℚ) : ℚ :=
  idf * (tf * (bm25K1 + 1)) / (tf + bm25K1 * (1 - bm25B + bm25B * dl / adl))

/-- BM25Okapi score of one document for a query. -/
def bm25DocScore (bm : BM25State) (doc : List String) (q : List String) : ℚ :=
  (q.map (fun t =>
    bm25TermScore (bm.idf t) (doc.count t : ℚ) (doc.length : ℚ) (avgdl bm.corpus))).sum

/-- Embedding of bm25.get_scores: the BM25 score of every corpus document
    for the given query tokens, in corpus order. -/
def get_scores (bm : BM25State) (q : List String) : List ℚ :=
  bm.corpus.map (fun d => bm25DocScore bm d q)

/-- Comparison used to model np.argsort on the score array: ascending by
    score, ties kept in index order. -/
def argRel (scores : List ℚ) (i j : ℕ) : Prop :=
  scores.getD i 0 < scores.getD j 0 ∨ (scores.getD i 0 = scores.getD j 0 ∧ i ≤ j)

instance (scores : List ℚ) : DecidableRel (argRel scores) := fun i j => by
  unfold argRel; infer_instance

instance (scores : List ℚ) : IsTotal ℕ (argRel scores) where
  total := by
    intro i j
    unfold argRel
    rcases lt_trichotomy (scores.getD i 0) (scores.getD j 0) with h | h | h
    · exact Or.inl (Or.inl h)
    · rcases Nat.le_total i j with hd | hd
      · exact Or.inl (Or.inr ⟨h, hd⟩)
      · exact Or.inr (Or.inr ⟨h.symm, hd⟩)
    · exact Or.inr (Or.inl h)

instance (scores : List ℚ) : IsTrans ℕ (argRel scores) where
  trans := by
    intro i j k hij hjk
    unfold argRel at *
    rcases hij with h1 | ⟨h1, h1d⟩ <;> rcases hjk with h2 | ⟨h2, h2d⟩
    · exact Or.inl (lt_trans h1 h2)
    · exact Or.inl (h2 ▸ h1)
    · exact Or.inl (h1 ▸ h2)
    · exact Or.inr ⟨h1.trans h2, le_trans h1d h2d⟩

/-- Embedding of np.argsort over the BM25 score array: the indices of the
    array sorted by ascending score. -/
def argsort (scores : List ℚ) : List ℕ :=
  List.insertionSort (argRel scores) (List.range scores.length)

/-- Python negative slicing l[-k:]: the last k elements, or the whole list
    when k is zero or exceeds the length. -/
def pyTakeLast {α : Type} (l : List α) (k : ℕ) : List α :=
  if k = 0 then l else l.drop (l.length - k)

/-- The module-level retrieval state of lightweight_production_server.py
    after initialization: the loaded BM25 object and the parallel document
    list. -/
structure ServerState where
  bm25 : BM25State
  documents : List String

/-- One match returned by the Pinecone index query. -/
structure PineMatch where
  id : String
  metadata : List (String × PyVal)
  score : ℚ

/-- Outcome of the vector backend portion of search_documents: either the
    Pinecone matches, or the exception raised by the OpenAI embedding call
    or the Pinecone query. -/
inductive VectorOutcome where
  | ok (ms : List PineMatch)
  | fail (msg : String)

/-- The dictionary appended for one Pinecone match on the success path of
    search_documents. -/
def matchEntry (m : PineMatch) : PyVal :=
  .dict [("metadata", .dict m.metadata), ("score", .num m.score)]

/-- The dictionary appended for one corpus index on the BM25 fallback path
    of search_documents. -/
def fallbackEntry (st : ServerState) (scores : List ℚ) (idx : ℕ) : PyVal :=
  .dict [("metadata", .dict [("content", .str (st.documents.getD idx ""))]),
         ("score", .num (scores.getD idx 0))]

/-- The score field of a result dictionary (0 when absent). -/
def entryScore : PyVal → ℚ
  | .dict fs =>
      match List.lookup ("score") fs with
      | some (.num q) => q
      | _ => 0
  | _ => 0

/-- The corpus indices chosen by the fallback path of search_documents:
    np.argsort of the BM25 scores, last top_k entries, reversed, keeping
    only indices below the length of the document list. -/
def fallbackIndices (st : ServerState) (qTokens : List String) (top_k : ℕ) : List ℕ :=
  let scores := get_scores st.bm25 qTokens
  ((pyTakeLast (argsort scores) top_k).reverse).filter
    (fun idx => idx < st.documents.length)

/-- Embedding of search_documents of lightweight_production_server.py.
    On the success path the BM25 scores are computed but the returned list
    is built solely from the Pinecone matches; on the exception path the
    fallback ranks the corpus by BM25 score and returns the top documents. -/
def search_documents (st : ServerState) (env : NltkEnv) (vec : VectorOutcome)
    (query : String) (top_k : ℕ) : List PyVal :=
  match vec with
  | .ok ms => ms.map matchEntry
  | .fail _ =>
      let qTokens := preprocess_text env query
      let scores := get_scores st.bm25 qTokens
      (fallbackIndices st qTokens top_k).map (fallbackEntry st scores)

/-- Provenance identifiers of the entries returned by search_documents:
    the Pinecone match ids on the success path, the chosen corpus indices
    on the fallback path. -/
def resultIds (st : ServerState) (env : NltkEnv) (vec : VectorOutcome)
    (query : String) (top_k : ℕ) : List (ℕ ⊕ String) :=
  match vec with
  | .ok ms => ms.map (fun m => Sum.inr m.id)
  | .fail _ => (fallbackIndices st (preprocess_text env query) top_k).map Sum.inl

/-- Contract of the external vector store for a query with limit top_k: it
    returns at most top_k nearest neighbours with pairwise distinct ids.
    The failure outcome carries no contract. -/
def vecContract : VectorOutcome → ℕ → Prop
  | .ok ms, k => ms.length ≤ k ∧ (ms.map PineMatch.id).Nodup
  | .fail _, _ => True

instance (v : VectorOutcome) (k : ℕ) : Decidable (vecContract v k) := by
  cases v <;> simp only [vecContract] <;> infer_instance

/-- Outcome of loading the two pickled lexical artifacts in
    initialize_services: both load, the files are absent
    (FileNotFoundError), or the load raises any other exception such as a
    corrupt pickle. -/
inductive PickleLoad where
  | ok (bm : BM25State) (docs : List String)
  | fileNotFound
  | corrupt (msg : String)

/-- Startup environment of initialize_services: whether the Groq, OpenAI
    and Pinecone client constructors succeed, the pickle load outcome, the
    NLTK oracle used when tokenizing the fallback corpus, and the idf
    computation performed by the BM25Okapi constructor. -/
structure InitEnv where
  clientsOk : Bool
  load : PickleLoad
  nltk : NltkEnv
  mkIdf : List (List String) → String → ℚ

/-- The minimal built-in fallback corpus of initialize_services. -/
def sample_docs : List String :=
  ["Chandigarh policy documents", "EV policy information", "Industrial policy details"]

/-- Embedding of initialize_services of lightweight_production_server.py.
    Returns the retrieval state on success and none when the function
    returns False, in which case main exits.  Only FileNotFoundError is
    caught by the inner handler; any other load exception propagates to
    the outer handler which makes initialization fail. -/
def init_services (env : InitEnv) : Option ServerState :=
  if env.clientsOk then
    match env.load with
    | .ok bm docs => some ⟨bm, docs⟩
    | .fileNotFound =>
        let tokenized := sample_docs.map (preprocess_text env.nltk)
        some ⟨⟨tokenized, env.mkIdf tokenized⟩, sample_docs⟩
    | .corrupt _ => none
  else none

/-- Whether the lightweight server process comes up: main exits unless
    initialize_services succeeds. -/
def serverStarts (env : InitEnv) : Bool :=
  (init_services env).isSome

/- ----------------------------------------------------------------- -/
/- Fusion engine and query cache, modelled from the specification.    -/
/- ----------------------------------------------------------------- -/

/-- A candidate from one retrieval backend: doc id and raw score.
    Modelled from the spec: the Candidate entity of the data model of the
    fusion engine, whose implementation module
    performance_fix_hybrid_search is not among the sources. -/
structure Candidate where
  docId : ℕ
  score : ℚ
  deriving DecidableEq

/-- A fused ranked entry: doc id, fused score, and the vector similarity
    kept for the tie-break rule.  Modelled from the spec. -/
structure FusedResult where
  docId : ℕ
  score : ℚ
  vecSim : ℚ
  deriving DecidableEq

/-- Doc ids of a candidate list. -/
def idsOf (l : List Candidate) : List ℕ := l.map Candidate.docId

/-- Raw scores of a candidate list. -/
def scoresOf (l : List Candidate) : List ℚ := l.map Candidate.score

/-- Maximum of a score list (0 for the empty list, which is never used). -/
def listMax : List ℚ → ℚ
  | [] => 0
  | x :: xs => xs.foldr max x

/-- Minimum of a score list (0 for the empty list, which is never used). -/
def listMin : List ℚ → ℚ
  | [] => 0
  | x :: xs => xs.foldr min x

/-- Min-max normalization of one score against a score list, mapping the
    list onto the unit interval; a degenerate list whose maximum equals its
    minimum is mapped to 0.  Modelled from the spec. -/
def minmaxNorm (scores : List ℚ) (s : ℚ) : ℚ :=
  if listMax scores = listMin scores then 0
  else (s - listMin scores) / (listMax scores - listMin scores)

/-- First-occurrence deduplication of a doc id list. -/
def dedupFirst : List ℕ → List ℕ
  | [] => []
  | x :: xs => x :: (dedupFirst xs).filter (fun y => y ≠ x)

/-- The score a candidate list assigns to a doc id, when present. -/
def lookupScore (cands : List Candidate) (d : ℕ) : Option ℚ :=
  (cands.find? (fun c => c.docId = d)).map Candidate.score

/-- Ordering of fused results: by fused score descending, ties broken by
    vector similarity descending, remaining ties by doc id (corpus
    insertion order).  Modelled from the spec tie-break rule. -/
def fusedLE (a b : FusedResult) : Prop :=
  b.score < a.score ∨
    (a.score = b.score ∧
      (b.vecSim < a.vecSim ∨ (a.vecSim = b.vecSim ∧ a.docId ≤ b.docId)))

instance : DecidableRel fusedLE := fun a b => by
  unfold fusedLE; infer_instance

instance : IsTotal FusedResult fusedLE where
  total := by
    intro a b
    unfold fusedLE
    rcases lt_trichotomy a.score b.score with hs | hs | hs
    · exact Or.inr (Or.inl hs)
    · rcases lt_trichotomy a.vecSim b.vecSim with hv | hv | hv
      · exact Or.inr (Or.inr ⟨hs.symm, Or.inl hv⟩)
      · rcases Nat.le_total a.docId b.docId with hd | hd
        · exact Or.inl (Or.inr ⟨hs, Or.inr ⟨hv, hd⟩⟩)
        · exact Or.inr (Or.inr ⟨hs.symm, Or.inr ⟨hv.symm, hd⟩⟩)
      · exact Or.inl (Or.inr ⟨hs, Or.inl hv⟩)
    · exact Or.inl (Or.inl hs)

instance : IsTrans FusedResult fusedLE where
  trans := by
    intro a b c hab hbc
    unfold fusedLE at *
    rcases hab with h1 | ⟨h1, h1t⟩
    · rcases hbc with h2 | ⟨h2, _⟩
      · exact Or.inl (lt_trans h2 h1)
      · exact Or.inl (h2 ▸ h1)
    · rcases hbc with h2 | ⟨h2, h2t⟩
      · exact Or.inl (h1 ▸ h2)
      · refine Or.inr ⟨h1.trans h2, ?_⟩
        rcases h1t with hv1 | ⟨hv1, hd1⟩
        · rcases h2t with hv2 | ⟨hv2, _⟩
          · exact Or.inl (lt_trans hv2 hv1)
          · exact Or.inl (hv2 ▸ hv1)
        · rcases h2t with hv2 | ⟨hv2, hd2⟩
          · exact Or.inl (hv1 ▸ hv2)
          · exact Or.inr ⟨hv1.trans hv2, le_trans hd1 hd2⟩

instance : IsAntisymm FusedResult fusedLE where
  antisymm := by
    intro a b hab hba
    unfold fusedLE at hab hba
    have hs : a.score = b.score := by
      rcases hab with h1 | ⟨h1, _⟩
      · rcases hba with h2 | ⟨h2, _⟩
        · exact absurd h1 (lt_asymm h2)
        · exact h2.symm
      · exact h1
    have hns1 : ¬ b.score < a.score := by rw [hs]; exact lt_irrefl _
    have hns2 : ¬ a.score < b.score := by rw [hs]; exact lt_irrefl _
    have ht1 := (hab.resolve_left hns1).2
    have ht2 := (hba.resolve_left hns2).2
    have hv : a.vecSim = b.vecSim := by
      rcases ht1 with hv1 | ⟨hv1, _⟩
      · rcases ht2 with hv2 | ⟨hv2, _⟩
        · exact absurd hv1 (lt_asymm hv2)
        · rw [hv2] at hv1; exact absurd hv1 (lt_irrefl _)
      · exact hv1
    have hnv1 : ¬ b.vecSim < a.vecSim := by rw [hv]; exact lt_irrefl _
    have hnv2 : ¬ a.vecSim < b.vecSim := by rw [hv]; exact lt_irrefl _
    have hd1 := (ht1.resolve_left hnv1).2
    have hd2 := (ht2.resolve_left hnv2).2
    have hd : a.docId = b.docId := Nat.le_antisymm hd1 hd2
    cases a; cases b
    simp only [FusedResult.mk.injEq]
    exact ⟨hd, hs, hv⟩

/-- Ordering of one candidate list by its own score: score descending,
    ties broken by doc id (corpus insertion order). -/
def candLE (a b : Candidate) : Prop :=
  b.score < a.score ∨ (a.score = b.score ∧ a.docId ≤ b.docId)

instance : DecidableRel candLE := fun a b => by
  unfold candLE; infer_instance

instance : IsTotal Candidate candLE where
  total := by
    intro a b
    unfold candLE
    rcases lt_trichotomy a.score b.score with hs | hs | hs
    · exact Or.inr (Or.inl hs)
    · rcases Nat.le_total a.docId b.docId with hd | hd
      · exact Or.inl (Or.inr ⟨hs, hd⟩)
      · exact Or.inr (Or.inr ⟨hs.symm, hd⟩)
    · exact Or.inl (Or.inl hs)

instance : IsTrans Candidate candLE where
  trans := by
    intro a b c hab hbc
    unfold candLE at *
    rcases hab with h1 | ⟨h1, h1d⟩ <;> rcases hbc with h2 | ⟨h2, h2d⟩
    · exact Or.inl (lt_trans h2 h1)
    · exact Or.inl (h2 ▸ h1)
    · exact Or.inl (h1 ▸ h2)
    · exact Or.inr ⟨h1.trans h2, le_trans h1d h2d⟩

/-- The single-document ranking of one backend: its candidate list sorted
    by candLE, truncated to top_k, projected to doc ids. -/
def candRanking (l : List Candidate) (top_k : ℕ) : List ℕ :=
  ((List.insertionSort candLE l).map Candidate.docId).take top_k

/-- The fused entry of one doc id under weighted-blend fusion: the fused
    score is alpha times the min-max normalized vector score plus
    1 - alpha times the min-max normalized lexical score, with 0 for a
    missing side; the raw vector similarity is kept for the tie-break.
    Modelled from the spec. -/
def fuseEntry (lex vec : List Candidate) (alpha : ℚ) (d : ℕ) : FusedResult :=
  let ln := match lookupScore lex d with
    | some s => minmaxNorm (scoresOf lex) s
    | none => 0
  let vn := match lookupScore vec d with
    | some s => minmaxNorm (scoresOf vec) s
    | none => 0
  ⟨d, alpha * vn + (1 - alpha) * ln, (lookupScore vec d).getD 0⟩

/-- Weighted-blend fusion.  Modelled from the spec: merge the two
    candidate lists into one list of distinct doc ids, score each with the
    alpha blend of the min-max normalized sides, sort by fused score with
    the spec tie-break, truncate to top_k. -/
def alphaFuse (lex vec : List Candidate) (alpha : ℚ) (top_k : ℕ) : List FusedResult :=
  (List.insertionSort fusedLE
    ((dedupFirst (idsOf lex ++ idsOf vec)).map (fuseEntry lex vec alpha))).take top_k

/-- The RRF constant. -/
def rrfK : ℚ := 60

/-- Reciprocal-rank contribution of a doc id in one ranked id list:
    1 / (rank + 60) at 1-based rank, 0 when absent.  Modelled from the
    spec. -/
def rrfContrib (ids : List ℕ) (d : ℕ) : ℚ :=
  match ids.findIdx? (fun x => x = d) with
  | some i => 1 / ((i : ℚ) + 1 + rrfK)
  | none => 0

/-- Reciprocal Rank Fusion.  Modelled from the spec: a doc fused score is
    the sum of its reciprocal-rank contributions over both lists. -/
def rrfFuse (lex vec : List Candidate) (top_k : ℕ) : List FusedResult :=
  (List.insertionSort fusedLE
    ((dedupFirst (idsOf lex ++ idsOf vec)).map (fun d =>
      ⟨d, rrfContrib (idsOf lex) d + rrfContrib (idsOf vec) d,
        (lookupScore vec d).getD 0⟩))).take top_k

/-- Fusion parameters of the engine configuration. -/
structure FusionParams where
  alpha : ℚ
  useRRF : Bool
  deriving DecidableEq

/-- Dispatch on the configured fusion strategy.  Modelled from the spec. -/
def fuse (P : FusionParams) (lex vec : List Candidate) (top_k : ℕ) : List FusedResult :=
  if P.useRRF then rrfFuse lex vec top_k else alphaFuse lex vec P.alpha top_k

/-- A memoized cache entry: key, fused value list and creation time.
    Modelled from the spec. -/
structure CEntry where
  key : String × ℕ × ℚ × Bool
  val : List FusedResult
  createdAt : ℚ

/-- Engine-wide state: the LRU cache (front is most recent) and the stats
    counters, extended with ghost counters recording how often each
    backend was invoked.  Modelled from the spec. -/
structure EngineState where
  cache : List CEntry
  cacheHits : ℕ
  cacheMisses : ℕ
  queriesProcessed : ℕ
  lexCalls : ℕ
  vecCalls : ℕ

/-- The two retrieval backends of the orchestrator: the lexical index is a
    pure scoring function over the preloaded corpus, the vector client can
    report BackendUnavailable.  Modelled from the spec. -/
structure Backends where
  lexical : String → List Candidate
  vector : String → ℕ → Except String (List Candidate)

/-- Query normalization for the cache key: trimmed and case-folded.
    Modelled from the spec. -/
def normalizeQuery (q : String) : String :=
  (pyStrip q).toLower

/-- The cache key: normalized query, top_k, and the active fusion
    parameters.  Modelled from the spec. -/
def mkKey (P : FusionParams) (q : String) (top_k : ℕ) : String × ℕ × ℚ × Bool :=
  (normalizeQuery q, top_k, P.alpha, P.useRRF)

/-- The cache-miss path of the orchestrator: invoke both backends, fall
    back to lexical-only candidates when the vector client reports
    BackendUnavailable, fuse, store the fused list at the front of the
    cache bounded by the capacity, update the counters.  Modelled from the
    spec. -/
def missStep (B : Backends) (P : FusionParams) (cap : ℕ) (now : ℚ)
    (q : String) (top_k : ℕ) (st : EngineState) : List FusedResult × EngineState :=
  let lexC := B.lexical q
  let fused := match B.vector q top_k with
    | .ok vcs => fuse P lexC vcs top_k
    | .error _ => fuse P lexC [] top_k
  (fused,
    { cache := (⟨mkKey P q top_k, fused, now⟩ ::
        st.cache.filter (fun e => e.key ≠ mkKey P q top_k)).take cap
      cacheHits := st.cacheHits
      cacheMisses := st.cacheMisses + 1
      queriesProcessed := st.queriesProcessed + 1
      lexCalls := st.lexCalls + 1
      vecCalls := st.vecCalls + 1 })

/-- The public search operation of the engine.  Modelled from the spec
    state machine: check the cache under the key derived from the
    normalized query and the fusion parameters; a fresh hit short-circuits
    both backends, is moved to the front of the LRU order and increments
    cache_hits; a miss or an expired entry runs the miss path. -/
def fast_search (B : Backends) (P : FusionParams) (ttl : ℚ) (cap : ℕ)
    (now : ℚ) (q : String) (top_k : ℕ) (st : EngineState) :
    List FusedResult × EngineState :=
  match st.cache.find? (fun e => e.key = mkKey P q top_k) with
  | some e =>
      if now - e.createdAt < ttl then
        (e.val,
          { st with
            cacheHits := st.cacheHits + 1
            queriesProcessed := st.queriesProcessed + 1
            cache := (e :: st.cache.filter (fun x => x.key ≠ e.key)).take cap })
      else missStep B P cap now q top_k st
  | none => missStep B P cap now q top_k st

/-- Result payload of an HTTP route handler. -/
inductive HandlerResult where
  | errorResp (code : ℕ) (msg : String)
  | okResp (results : List FusedResult)

/-- Embedding of the search route of fast_hybrid_search_server.py up to
    the invocation of the engine.  The request body is an optional JSON
    dictionary; a missing body raises inside the handler and is answered
    with status 500, a query that strips to the empty string is rejected
    with status 400 before fast_search runs.  The Boolean records whether
    the engine was invoked. -/
def fastServerSearch (engineRun : String → ℕ → List FusedResult)
    (body : Option (List (String × String))) : HandlerResult × Bool :=
  match body with
  | none => (.errorResp 500 ("error"), false)
  | some d =>
      let query := pyStrip ((List.lookup ("message") d).getD (""))
      if query = ("") then (.errorResp 400 ("No query provided"), false)
      else (.okResp (engineRun query 6), true)

/-- Embedding of the search route of production_server.py up to the
    invocation of the engine: a missing body or message key is answered
    with status 400, and a query that strips to the empty string is
    rejected with status 400 before fast_search runs.  The Boolean records
    whether the engine was invoked. -/
def prodServerSearch (engineRun : String → ℕ → List FusedResult)
    (body : Option (List (String × String))) : HandlerResult × Bool :=
  match body with
  | none => (.errorResp 400 ("No message provided"), false)
  | some d =>
      match List.lookup ("message") d with
      | none => (.errorResp 400 ("No message provided"), false)
      | some m =>
          let query := pyStrip m
          if query = ("") then (.errorResp 400 ("Empty query"), false)
          else (.okResp (engineRun query 6), true)

/-- Response of the health route of fast_hybrid_search_server.py. -/
structure HealthResponse where
  httpCode : ℕ
  status : String
  searcher_ready : Bool
  llm_ready : Bool
  timestamp : ℚ
  deriving DecidableEq

/-- Embedding of health_check of fast_hybrid_search_server.py: an
    unconditional jsonify of a literal dictionary, answered by Flask with
    status 200; the searcher and LLM globals only feed the two readiness
    Booleans. -/
def health_check {α β : Type} (fast_searcher : Option α)
    (groq_client : Option β) (now : ℚ) : HealthResponse :=
  ⟨200, "healthy", fast_searcher.isSome, groq_client.isSome, now⟩

/- The rational operations of the standard library are marked irreducible,
   which blocks kernel evaluation of the concrete instances below; they are
   restored to the default reducibility for this development. -/
attribute [local semireducible] Rat.add Rat.mul Rat.sub Rat.inv

/-- Concrete NLTK oracle whose tokenizer always fails, as when language
    resources are missing. -/
def envFailC : NltkEnv := ⟨fun _ => .error ("no punkt"), .error ("no stopwords")⟩

/-- Concrete NLTK oracle that tokenizes every text to the single token ev
    with an empty stopword list. -/
def envEvC : NltkEnv := ⟨fun _ => .ok [("ev")], .ok []⟩

/-- Concrete two-document BM25 state over the tokens ev and tax with unit
    idf weights. -/
def bmEvC : BM25State := ⟨[[("ev")], [("tax")]], fun _ => 1⟩

/-- Concrete BM25 state whose first document shares no token with the
    query ev. -/
def bmZzC : BM25State := ⟨[[("zz")], [("tax")]], fun _ => 1⟩

/-- Concrete server state over the ev corpus. -/
def stEvC : ServerState := ⟨bmEvC, [("ev doc"), ("tax doc")]⟩

/-- Concrete server state over the zz corpus with the same documents. -/
def stZzC : ServerState := ⟨bmZzC, [("ev doc"), ("tax doc")]⟩

/-- Concrete Pinecone match list with a single match. -/
def msOneC : List PineMatch := [⟨("d1"), [(("content"), .str ("tax doc"))], 9 / 10⟩]

/-- Concrete backends for the modelled engine. -/
def backendsC : Backends :=
  ⟨fun _ => [⟨0, 1⟩, ⟨1, 1 / 2⟩], fun _ _ => .ok [⟨1, 4 / 5⟩]⟩

/-- Concrete fusion parameters for the modelled engine. -/
def paramsC : FusionParams := ⟨1 / 2, true⟩

/-- The empty engine state. -/
def engineStateC : EngineState := ⟨[], 0, 0, 0, 0, 0⟩

/- ----------------------------------------------------------------- -/
/- Theorems.                                                          -/
/- ----------------------------------------------------------------- -/

theorem pyStrip_of_all_whitespace (s : String)
    (h : ∀ c ∈ s.toList, c.isWhitespace) : pyStrip s = ("") := by
  unfold pyStrip stripChars
  rw [List.dropWhile_eq_nil_iff.mpr h]
  rfl

/-- C9: for every server state, including when the searcher or the LLM
    client failed to initialize and is None, the health route of the fast
    server answers HTTP 200 with status healthy, and unreadiness shows
    only in the two Boolean readiness fields. -/
theorem c9_health_always_healthy {α β : Type} (fs : Option α) (gc : Option β) (now : ℚ) :
    (health_check fs gc now).httpCode = 200 ∧
    (health_check fs gc now).status = ("healthy") ∧
    (health_check fs gc now).searcher_ready = fs.isSome ∧
    (health_check fs gc now).llm_ready = gc.isSome :=
  ⟨rfl, rfl, rfl, rfl⟩

/-- C8: a request whose message strips to the empty string, in particular
    any whitespace-only query, is rejected with a 400 error by the search
    routes of both the fast server and the production server before the
    retrieval engine is invoked. -/
theorem c8_blank_query_rejected (engF engP : String → ℕ → List FusedResult)
    (d : List (String × String)) (msg : String)
    (hlook : List.lookup ("message") d = some msg)
    (hws : ∀ c ∈ msg.toList, c.isWhitespace) :
    fastServerSearch engF (some d) = (.errorResp 400 ("No query provided"), false) ∧
    prodServerSearch engP (some d) = (.errorResp 400 ("Empty query"), false) := by
  have hstrip : pyStrip msg = ("") := pyStrip_of_all_whitespace msg hws
  constructor
  · simp [fastServerSearch, hlook, hstrip]
  · simp [prodServerSearch, hlook, hstrip]

theorem c8_blank_query_rejected_witness :
    (List.lookup ("message") [(("message"), (" "))] = some (" ") ∧
      ∀ c ∈ (" ").toList, c.isWhitespace) ∧
    (fastServerSearch (fun _ _ => []) (some [(("message"), (" "))]) =
        (.errorResp 400 ("No query provided"), false) ∧
      prodServerSearch (fun _ _ => []) (some [(("message"), (" "))]) =
        (.errorResp 400 ("Empty query"), false)) :=
  ⟨⟨by decide, by decide⟩,
    c8_blank_query_rejected (fun _ _ => []) (fun _ _ => [])
      [(("message"), (" "))] (" ") (by decide) (by decide)⟩

/-- C6: preprocess_text is a total function and, whenever the stopword
    list or the tokenizer fails, it returns the naive whitespace split of
    the lowercased text instead of raising. -/
theorem c6_preprocess_never_raises (env : NltkEnv) (text : String)
    (hfail : (∃ m, env.stopwordsResult = .error m) ∨
      (∃ m, env.tokenize text.toLower = .error m)) :
    preprocess_text env text = pySplit text.toLower := by
  unfold preprocess_text
  rcases hfail with ⟨m, hm⟩ | ⟨m, hm⟩
  · rw [hm]
  · rw [hm]
    cases env.stopwordsResult <;> rfl

theorem c6_preprocess_never_raises_witness :
    ((∃ m, envFailC.stopwordsResult = .error m) ∨
      (∃ m, envFailC.tokenize (("A  B")).toLower = .error m)) ∧
    preprocess_text envFailC ("A  B") = pySplit (("A  B")).toLower :=
  ⟨Or.inl ⟨("no stopwords"), rfl⟩,
    c6_preprocess_never_raises envFailC ("A  B") (Or.inl ⟨("no stopwords"), rfl⟩)⟩

/-- C7 counterexample: a startup state whose persisted lexical artifacts
    are corrupt rather than absent makes initialize_services fail, so the
    server refuses to start instead of recovering with the built-in
    fallback corpus; this falsifies the claim for corrupt artifacts. -/
theorem c7_corrupt_refuses_start :
    init_services ⟨true, .corrupt ("bad pickle"), envFailC, fun _ _ => 0⟩ = none ∧
    serverStarts ⟨true, .corrupt ("bad pickle"), envFailC, fun _ _ => 0⟩ = false :=
  ⟨rfl, rfl⟩

/-- C7 amended: when the client constructors succeed, absent artifacts
    (FileNotFoundError) are recovered by building the minimal three
    document fallback corpus and the engine starts, while any other load
    failure, such as a corrupt pickle, makes initialization fail and the
    server exit. -/
theorem c7_missing_recovers_corrupt_fails (env : InitEnv)
    (hok : env.clientsOk = true) :
    (env.load = .fileNotFound →
      init_services env =
        some ⟨⟨sample_docs.map (preprocess_text env.nltk),
          env.mkIdf (sample_docs.map (preprocess_text env.nltk))⟩, sample_docs⟩ ∧
      serverStarts env = true) ∧
    (∀ m, env.load = .corrupt m →
      init_services env = none ∧ serverStarts env = false) := by
  constructor
  · intro hload
    unfold serverStarts init_services
    rw [hok, hload]
    exact ⟨rfl, rfl⟩
  · intro m hload
    unfold serverStarts init_services
    rw [hok, hload]
    exact ⟨rfl, rfl⟩

theorem c7_missing_recovers_corrupt_fails_witness :
    ((⟨true, .fileNotFound, envFailC, fun _ _ => 0⟩ : InitEnv).clientsOk = true) ∧
    (((⟨true, .fileNotFound, envFailC, fun _ _ => 0⟩ : InitEnv).load = .fileNotFound →
      init_services ⟨true, .fileNotFound, envFailC, fun _ _ => 0⟩ =
        some ⟨⟨sample_docs.map (preprocess_text envFailC),
          (fun (_ : List (List String)) (_ : String) => (0 : ℚ))
            (sample_docs.map (preprocess_text envFailC))⟩, sample_docs⟩ ∧
      serverStarts ⟨true, .fileNotFound, envFailC, fun _ _ => 0⟩ = true) ∧
    (∀ m, (⟨true, .fileNotFound, envFailC, fun _ _ => 0⟩ : InitEnv).load = .corrupt m →
      init_services ⟨true, .fileNotFound, envFailC, fun _ _ => 0⟩ = none ∧
      serverStarts ⟨true, .fileNotFound, envFailC, fun _ _ => 0⟩ = false)) :=
  ⟨rfl, c7_missing_recovers_corrupt_fails ⟨true, .fileNotFound, envFailC, fun _ _ => 0⟩ rfl⟩

/-- C3 counterexample: with the vector outcome held fixed, two server
    states whose BM25 scores for the query differ produce identical
    search_documents output on the success path, so a document position
    cannot depend on its lexical score; this falsifies the claim that the
    success path merges lexical and vector evidence. -/
theorem c3_success_ignores_lexical_scores :
    get_scores bmEvC [("ev")] ≠ get_scores bmZzC [("ev")] ∧
    search_documents stEvC envEvC (.ok msOneC) ("ev") 2 =
      search_documents stZzC envEvC (.ok msOneC) ("ev") 2 :=
  ⟨by decide, rfl⟩

/-- C3 amended: on the success path search_documents returns exactly the
    Pinecone matches in backend order, one entry of metadata and score per
    match; the BM25 scores are computed but do not influence the returned
    list, which depends on the vector matches alone. -/
theorem c3_success_is_vector_only (st : ServerState) (env : NltkEnv)
    (ms : List PineMatch) (query : String) (top_k : ℕ) :
    search_documents st env (.ok ms) query top_k = ms.map matchEntry := rfl

theorem argsort_perm (s : List ℚ) : List.Perm (argsort s) (List.range s.length) :=
  List.perm_insertionSort (argRel s) (List.range s.length)

theorem argsort_nodup (s : List ℚ) : (argsort s).Nodup :=
  ((argsort_perm s).symm.nodup_iff).mp (List.nodup_range _)

theorem mem_argsort {s : List ℚ} {i : ℕ} (h : i ∈ argsort s) : i < s.length := by
  have := (argsort_perm s).mem_iff.mp h
  simpa [List.mem_range] using this

theorem argsort_sorted (s : List ℚ) : List.Sorted (argRel s) (argsort s) :=
  List.sorted_insertionSort (argRel s) (List.range s.length)

theorem pyTakeLast_sublist {α : Type} (l : List α) (k : ℕ) :
    List.Sublist (pyTakeLast l k) l := by
  unfold pyTakeLast
  split
  · exact List.Sublist.refl l
  · exact List.drop_sublist _ l

theorem pyTakeLast_length {α : Type} (l : List α) {k : ℕ} (hk : k ≠ 0) :
    (pyTakeLast l k).length = min k l.length := by
  unfold pyTakeLast
  rw [if_neg hk, List.length_drop]
  omega

theorem fallbackIndices_nodup (st : ServerState) (qTokens : List String) (k : ℕ) :
    (fallbackIndices st qTokens k).Nodup := by
  unfold fallbackIndices
  exact (List.nodup_reverse.mpr
    ((argsort_nodup _).sublist (pyTakeLast_sublist _ _))).filter _

theorem fallbackIndices_sub (st : ServerState) (qTokens : List String) (k : ℕ)
    {i : ℕ} (h : i ∈ fallbackIndices st qTokens k) :
    i ∈ argsort (get_scores st.bm25 qTokens) := by
  unfold fallbackIndices at h
  have h1 := List.mem_of_mem_filter h
  rw [List.mem_reverse] at h1
  exact (pyTakeLast_sublist _ _).mem h1

theorem fallbackIndices_length_le (st : ServerState) (qTokens : List String)
    {k : ℕ} (hk : 0 < k) : (fallbackIndices st qTokens k).length ≤ k := by
  unfold fallbackIndices
  calc (((pyTakeLast (argsort (get_scores st.bm25 qTokens)) k).reverse).filter
          (fun idx => idx < st.documents.length)).length
      ≤ ((pyTakeLast (argsort (get_scores st.bm25 qTokens)) k).reverse).length :=
        List.length_filter_le _ _
    _ = (pyTakeLast (argsort (get_scores st.bm25 qTokens)) k).length :=
        List.length_reverse _
    _ = min k (argsort (get_scores st.bm25 qTokens)).length :=
        pyTakeLast_length _ (Nat.pos_iff_ne_zero.mp hk)
    _ ≤ k := Nat.min_le_left _ _

theorem get_scores_length (bm : BM25State) (q : List String) :
    (get_scores bm q).length = bm.corpus.length := by
  unfold get_scores
  exact List.length_map _ _

theorem fallbackIndices_length_eq (st : ServerState) (qTokens : List String)
    {k : ℕ} (hk : 0 < k)
    (hcons : st.bm25.corpus.length = st.documents.length) :
    (fallbackIndices st qTokens k).length = min k st.documents.length := by
  unfold fallbackIndices
  have hlen : (argsort (get_scores st.bm25 qTokens)).length = st.documents.length := by
    rw [(argsort_perm _).length_eq, List.length_range, get_scores_length, hcons]
  have hall : ∀ i ∈ (pyTakeLast (argsort (get_scores st.bm25 qTokens)) k).reverse,
      i < st.documents.length := by
    intro i hi
    rw [List.mem_reverse] at hi
    have := mem_argsort ((pyTakeLast_sublist _ _).mem hi)
    rw [get_scores_length, hcons] at this
    exact this
  rw [List.filter_eq_self.mpr (fun a ha => by simpa using hall a ha)]
  rw [List.length_reverse, pyTakeLast_length _ (Nat.pos_iff_ne_zero.mp hk), hlen]

theorem fallbackIndices_scores_antitone (st : ServerState) (qTokens : List String)
    (k : ℕ) :
    List.Pairwise
      (fun i j => (get_scores st.bm25 qTokens).getD j 0 ≤ (get_scores st.bm25 qTokens).getD i 0)
      (fallbackIndices st qTokens k) := by
  unfold fallbackIndices
  have h1 : List.Pairwise (argRel (get_scores st.bm25 qTokens))
      (pyTakeLast (argsort (get_scores st.bm25 qTokens)) k) :=
    (argsort_sorted _).sublist (pyTakeLast_sublist _ _)
  have h2 : List.Pairwise (fun i j => argRel (get_scores st.bm25 qTokens) j i)
      ((pyTakeLast (argsort (get_scores st.bm25 qTokens)) k).reverse) :=
    List.pairwise_reverse.mpr h1
  refine ((h2.sublist (List.filter_sublist _)).imp ?_)
  intro i j hij
  rcases hij with h | ⟨h, _⟩
  · exact le_of_lt h
  · exact le_of_eq h

theorem entryScore_fallbackEntry (st : ServerState) (scores : List ℚ) (idx : ℕ) :
    entryScore (fallbackEntry st scores idx) = scores.getD idx 0 := rfl

theorem fallbackEntry_not_tagged (st : ServerState) (scores : List ℚ) (idx : ℕ) :
    ¬ taggedWithMarker (fallbackEntry st scores idx) := by
  intro h
  rcases h with ⟨key, hmem, h1, h2, h3⟩
  have hcases : key = ("metadata") ∨ key = ("score") ∨ key = ("content") := by
    simpa [fallbackEntry, entryKeys, topKeys] using hmem
  rcases hcases with h | h | h
  · exact h1 h
  · exact h2 h
  · exact h3 h

theorem get_scores_zero (bm : BM25State) (q : List String)
    (h : ∀ t ∈ q, ∀ doc ∈ bm.corpus, t ∉ doc) :
    ∀ x ∈ get_scores bm q, x = 0 := by
  intro x hx
  unfold get_scores at hx
  rcases List.mem_map.mp hx with ⟨doc, hdoc, rfl⟩
  unfold bm25DocScore
  apply List.sum_eq_zero
  intro y hy
  rcases List.mem_map.mp hy with ⟨t, ht, rfl⟩
  have hcount : doc.count t = 0 := List.count_eq_zero.mpr (h t ht doc hdoc)
  rw [hcount]
  simp [bm25TermScore]

theorem getD_zero_of_forall_zero :
    ∀ (l : List ℚ), (∀ x ∈ l, x = 0) → ∀ i, l.getD i 0 = 0
  | [], _, i => by simp [List.getD]
  | x :: xs, h, 0 => by simpa using h x (List.mem_cons_self _ _)
  | x :: xs, h, i + 1 => by
      simpa using getD_zero_of_forall_zero xs (fun y hy => h y (List.mem_cons_of_mem _ hy)) i

/-- C1: for every query, positive top_k and backend outcome respecting the
    vector store contract, both the success path and the fallback path of
    search_documents return at most top_k entries whose provenance doc ids
    are pairwise distinct. -/
theorem c1_bounded_and_nodup (st : ServerState) (env : NltkEnv) (query : String)
    (top_k : ℕ) (vec : VectorOutcome) (hk : 0 < top_k)
    (hvec : vecContract vec top_k) :
    (search_documents st env vec query top_k).length ≤ top_k ∧
    (resultIds st env vec query top_k).Nodup := by
  cases vec with
  | ok ms =>
      obtain ⟨hlen, hnodup⟩ := hvec
      constructor
      · show (ms.map matchEntry).length ≤ top_k
        rw [List.length_map]
        exact hlen
      · show (ms.map (fun m => (Sum.inr m.id : ℕ ⊕ String))).Nodup
        have h2 := hnodup.map (Sum.inr_injective (α := ℕ))
        rw [List.map_map] at h2
        exact h2
  | fail msg =>
      constructor
      · show ((fallbackIndices st (preprocess_text env query) top_k).map _).length ≤ top_k
        rw [List.length_map]
        exact fallbackIndices_length_le st _ hk
      · exact (fallbackIndices_nodup st _ top_k).map Sum.inl_injective

theorem c1_bounded_and_nodup_witness :
    (0 < 2 ∧ vecContract (.ok msOneC) 2) ∧
    ((search_documents stEvC envEvC (.ok msOneC) ("ev") 2).length ≤ 2 ∧
      (resultIds stEvC envEvC (.ok msOneC) ("ev") 2).Nodup) :=
  ⟨⟨by decide, by decide⟩,
    c1_bounded_and_nodup stEvC envEvC ("ev") 2 (.ok msOneC) (by decide) (by decide)⟩

/-- C2 counterexample: a concrete vector-backend failure over a two
    document corpus returns two fallback entries, none of which carries
    any key beyond metadata, score and content, so no entry is tagged with
    a degraded-source marker; this falsifies the tagging part of the
    claim. -/
theorem c2_fallback_entries_untagged :
    (search_documents stEvC envEvC (.fail ("boom")) ("ev") 2).length = 2 ∧
    ∀ e ∈ search_documents stEvC envEvC (.fail ("boom")) ("ev") 2,
      ¬ taggedWithMarker e := ⟨by decide, by decide⟩

/-- C2 amended: when the vector backend fails, search_documents does not
    raise: over a nonempty corpus consistent with the document list it
    returns a nonempty list of BM25-ranked entries of length at most
    top_k, but the entries carry no degraded-source marker; each consists
    solely of a metadata content field and a score. -/
theorem c2_fallback_lexical_only (st : ServerState) (env : NltkEnv)
    (query msg : String) (top_k : ℕ) (hk : 0 < top_k)
    (hcons : st.bm25.corpus.length = st.documents.length)
    (hne : st.documents ≠ []) :
    search_documents st env (.fail msg) query top_k ≠ [] ∧
    (search_documents st env (.fail msg) query top_k).length ≤ top_k ∧
    ∀ e ∈ search_documents st env (.fail msg) query top_k,
      ¬ taggedWithMarker e := by
  refine ⟨?_, ?_, ?_⟩
  · show (fallbackIndices st (preprocess_text env query) top_k).map _ ≠ []
    apply List.ne_nil_of_length_pos
    rw [List.length_map,
      fallbackIndices_length_eq st (preprocess_text env query) hk hcons]
    have hd : 0 < st.documents.length := List.length_pos.mpr hne
    omega
  · show ((fallbackIndices st (preprocess_text env query) top_k).map _).length ≤ top_k
    rw [List.length_map]
    exact fallbackIndices_length_le st _ hk
  · intro e he
    rcases List.mem_map.mp he with ⟨idx, _, rfl⟩
    exact fallbackEntry_not_tagged st _ idx

theorem c2_fallback_lexical_only_witness :
    (0 < 2 ∧ stEvC.bm25.corpus.length = stEvC.documents.length ∧
      stEvC.documents ≠ []) ∧
    (search_documents stEvC envEvC (.fail ("boom")) ("ev") 2 ≠ [] ∧
      (search_documents stEvC envEvC (.fail ("boom")) ("ev") 2).length ≤ 2 ∧
      ∀ e ∈ search_documents stEvC envEvC (.fail ("boom")) ("ev") 2,
        ¬ taggedWithMarker e) :=
  ⟨⟨by decide, by decide, by decide⟩,
    c2_fallback_lexical_only stEvC envEvC ("ev") ("boom") 2 (by decide)
      (by decide) (by decide)⟩

/-- C10: on the fallback path search_documents returns exactly
    min(top_k, corpus size) entries ordered by non-increasing BM25 score,
    and when the preprocessed query shares no token with any corpus
    document it still returns that many entries, every one scored 0. -/
theorem c10_fallback_min_topk_sorted_zero (st : ServerState) (env : NltkEnv)
    (query msg : String) (top_k : ℕ) (hk : 0 < top_k)
    (hcons : st.bm25.corpus.length = st.documents.length) :
    (search_documents st env (.fail msg) query top_k).length =
      min top_k st.documents.length ∧
    List.Pairwise (fun a b => b ≤ a)
      ((search_documents st env (.fail msg) query top_k).map entryScore) ∧
    ((∀ t ∈ preprocess_text env query, ∀ doc ∈ st.bm25.corpus, t ∉ doc) →
      ∀ e ∈ search_documents st env (.fail msg) query top_k, entryScore e = 0) := by
  refine ⟨?_, ?_, ?_⟩
  · show ((fallbackIndices st (preprocess_text env query) top_k).map _).length = _
    rw [List.length_map]
    exact fallbackIndices_length_eq st _ hk hcons
  · show List.Pairwise _
      (((fallbackIndices st (preprocess_text env query) top_k).map
        (fallbackEntry st (get_scores st.bm25 (preprocess_text env query)))).map entryScore)
    rw [List.map_map]
    rw [List.pairwise_map]
    refine (fallbackIndices_scores_antitone st (preprocess_text env query) top_k).imp ?_
    intro i j hij
    simpa [entryScore_fallbackEntry] using hij
  · intro hzero e he
    rcases List.mem_map.mp he with ⟨idx, _, rfl⟩
    rw [entryScore_fallbackEntry]
    exact getD_zero_of_forall_zero _ (get_scores_zero st.bm25 _ hzero) idx

theorem c10_fallback_min_topk_sorted_zero_witness :
    (0 < 3 ∧ stEvC.bm25.corpus.length = stEvC.documents.length) ∧
    ((search_documents stEvC envEvC (.fail ("boom")) ("ev") 3).length =
        min 3 stEvC.documents.length ∧
      List.Pairwise (fun a b => b ≤ a)
        ((search_documents stEvC envEvC (.fail ("boom")) ("ev") 3).map entryScore) ∧
      ((∀ t ∈ preprocess_text envEvC ("ev"), ∀ doc ∈ stEvC.bm25.corpus, t ∉ doc) →
        ∀ e ∈ search_documents stEvC envEvC (.fail ("boom")) ("ev") 3,
          entryScore e = 0)) :=
  ⟨⟨by decide, by decide⟩,
    c10_fallback_min_topk_sorted_zero stEvC envEvC ("ev") ("boom") 3 (by decide)
      (by decide)⟩

/-- C4: issuing the same query with the same top_k and fusion parameters
    twice within the TTL invokes the lexical and vector backends exactly
    once in total: the first call misses and runs both backends, the
    second call is answered from the cache with the same result list,
    makes no backend call, and increments cache_hits by exactly 1. -/
theorem c4_cache_idempotent (B : Backends) (P : FusionParams) (ttl : ℚ)
    (cap : ℕ) (t1 t2 : ℚ) (q : String) (top_k : ℕ) (st0 : EngineState)
    (habs : st0.cache.find? (fun e => e.key = mkKey P q top_k) = none)
    (hcap : 0 < cap) (hfresh : t2 - t1 < ttl) :
    (fast_search B P ttl cap t2 q top_k
        (fast_search B P ttl cap t1 q top_k st0).2).1 =
      (fast_search B P ttl cap t1 q top_k st0).1 ∧
    (fast_search B P ttl cap t1 q top_k st0).2.lexCalls = st0.lexCalls + 1 ∧
    (fast_search B P ttl cap t1 q top_k st0).2.vecCalls = st0.vecCalls + 1 ∧
    (fast_search B P ttl cap t2 q top_k
        (fast_search B P ttl cap t1 q top_k st0).2).2.lexCalls =
      st0.lexCalls + 1 ∧
    (fast_search B P ttl cap t2 q top_k
        (fast_search B P ttl cap t1 q top_k st0).2).2.vecCalls =
      st0.vecCalls + 1 ∧
    (fast_search B P ttl cap t1 q top_k st0).2.cacheHits = st0.cacheHits ∧
    (fast_search B P ttl cap t2 q top_k
        (fast_search B P ttl cap t1 q top_k st0).2).2.cacheHits =
      st0.cacheHits + 1 := by
  obtain ⟨c, rfl⟩ : ∃ c, cap = c + 1 := ⟨cap - 1, by omega⟩
  have h1 : fast_search B P ttl (c + 1) t1 q top_k st0 =
      missStep B P (c + 1) t1 q top_k st0 := by
    unfold fast_search
    rw [habs]
  rw [h1]
  unfold missStep
  simp only [List.take_succ_cons]
  unfold fast_search
  rw [List.find?_cons_of_pos _ (by simp)]
  simp only [if_pos hfresh]
  exact ⟨trivial, trivial, trivial, trivial, trivial, trivial, trivial⟩

theorem c4_cache_idempotent_witness :
    (engineStateC.cache.find? (fun e => e.key = mkKey paramsC ("a") 2) = none ∧
      0 < 5 ∧ (1 : ℚ) - 0 < 10) ∧
    ((fast_search backendsC paramsC 10 5 1 ("a") 2
        (fast_search backendsC paramsC 10 5 0 ("a") 2 engineStateC).2).1 =
      (fast_search backendsC paramsC 10 5 0 ("a") 2 engineStateC).1 ∧
    (fast_search backendsC paramsC 10 5 0 ("a") 2 engineStateC).2.lexCalls =
      engineStateC.lexCalls + 1 ∧
    (fast_search backendsC paramsC 10 5 0 ("a") 2 engineStateC).2.vecCalls =
      engineStateC.vecCalls + 1 ∧
    (fast_search backendsC paramsC 10 5 1 ("a") 2
        (fast_search backendsC paramsC 10 5 0 ("a") 2 engineStateC).2).2.lexCalls =
      engineStateC.lexCalls + 1 ∧
    (fast_search backendsC paramsC 10 5 1 ("a") 2
        (fast_search backendsC paramsC 10 5 0 ("a") 2 engineStateC).2).2.vecCalls =
      engineStateC.vecCalls + 1 ∧
    (fast_search backendsC paramsC 10 5 0 ("a") 2 engineStateC).2.cacheHits =
      engineStateC.cacheHits ∧
    (fast_search backendsC paramsC 10 5 1 ("a") 2
        (fast_search backendsC paramsC 10 5 0 ("a") 2 engineStateC).2).2.cacheHits =
      engineStateC.cacheHits + 1) :=
  ⟨⟨rfl, by decide, by decide⟩,
    c4_cache_idempotent backendsC paramsC 10 5 0 1 ("a") 2 engineStateC rfl
      (by decide) (by decide)⟩

theorem foldr_max_init_le (x : ℚ) : ∀ (xs : List ℚ), x ≤ xs.foldr max x
  | [] => le_refl x
  | a :: t => le_trans (foldr_max_init_le x t) (le_max_right a _)

theorem le_foldr_max {y x : ℚ} : ∀ {xs : List ℚ}, y ∈ x :: xs → y ≤ xs.foldr max x
  | [], h => by
      rw [List.mem_singleton.mp h]
      exact le_refl x
  | a :: t, h => by
      rcases List.mem_cons.mp h with rfl | h2
      · exact le_trans (foldr_max_init_le y t) (le_max_right a _)
      · rcases List.mem_cons.mp h2 with rfl | h3
        · exact le_max_left _ _
        · exact le_trans (le_foldr_max (List.mem_cons_of_mem x h3)) (le_max_right a _)

theorem le_listMax {y : ℚ} {l : List ℚ} (h : y ∈ l) : y ≤ listMax l := by
  cases l with
  | nil => cases h
  | cons x xs => exact le_foldr_max h

theorem le_foldr_min_init (x : ℚ) : ∀ (xs : List ℚ), xs.foldr min x ≤ x
  | [] => le_refl x
  | a :: t => le_trans (min_le_right a _) (le_foldr_min_init x t)

theorem foldr_min_le {y x : ℚ} : ∀ {xs : List ℚ}, y ∈ x :: xs → xs.foldr min x ≤ y
  | [], h => by
      rw [List.mem_singleton.mp h]
      exact le_refl x
  | a :: t, h => by
      rcases List.mem_cons.mp h with rfl | h2
      · exact le_trans (min_le_right a _) (le_foldr_min_init y t)
      · rcases List.mem_cons.mp h2 with rfl | h3
        · exact min_le_left _ _
        · exact le_trans (min_le_right a _) (foldr_min_le (List.mem_cons_of_mem x h3))

theorem listMin_le {y : ℚ} {l : List ℚ} (h : y ∈ l) : listMin l ≤ y := by
  cases l with
  | nil => cases h
  | cons x xs => exact foldr_min_le h

theorem minmaxNorm_strictMono (scores : List ℚ) {a b : ℚ} (ha : a ∈ scores)
    (hb : b ∈ scores) (hab : b < a) :
    minmaxNorm scores b < minmaxNorm scores a := by
  have hhi : a ≤ listMax scores := le_listMax ha
  have hlo : listMin scores ≤ b := listMin_le hb
  have hlt : listMin scores < listMax scores :=
    lt_of_le_of_lt hlo (lt_of_lt_of_le hab hhi)
  unfold minmaxNorm
  simp only [if_neg (ne_of_gt hlt)]
  exact (div_lt_div_iff_of_pos_right (sub_pos.mpr hlt)).mpr (sub_lt_sub_right hab _)

theorem mem_dedupFirst {y : ℕ} : ∀ {l : List ℕ}, y ∈ dedupFirst l ↔ y ∈ l
  | [] => Iff.rfl
  | x :: xs => by
      unfold dedupFirst
      by_cases h : y = x
      · subst h
        simp
      · simp [List.mem_filter, h, mem_dedupFirst (l := xs)]

theorem dedupFirst_of_nodup : ∀ {l : List ℕ}, l.Nodup → dedupFirst l = l
  | [], _ => rfl
  | x :: xs, h => by
      obtain ⟨hx, hxs⟩ := List.nodup_cons.mp h
      unfold dedupFirst
      rw [dedupFirst_of_nodup hxs]
      rw [List.filter_eq_self.mpr]
      intro a ha
      have hne : a ≠ x := fun he => hx (he ▸ ha)
      simpa using hne

theorem dedupFirst_append_new : ∀ {l : List ℕ} {y : ℕ}, y ∉ l →
    dedupFirst (l ++ [y]) = dedupFirst l ++ [y]
  | [], y, _ => rfl
  | x :: t, y, h => by
      have hyx : y ≠ x := fun he => h (he ▸ List.mem_cons_self x t)
      have hyt : y ∉ t := fun he => h (List.mem_cons_of_mem x he)
      show x :: (dedupFirst (t ++ [y])).filter (fun z => z ≠ x) =
        (x :: (dedupFirst t).filter (fun z => z ≠ x)) ++ [y]
      rw [dedupFirst_append_new hyt, List.filter_append]
      simp [hyx]

theorem dedupFirst_append_mem : ∀ {l : List ℕ} {y : ℕ}, y ∈ l →
    dedupFirst (l ++ [y]) = dedupFirst l
  | [], y, h => absurd h (List.not_mem_nil y)
  | x :: t, y, h => by
      show x :: (dedupFirst (t ++ [y])).filter (fun z => z ≠ x) =
        x :: (dedupFirst t).filter (fun z => z ≠ x)
      by_cases hyt : y ∈ t
      · rw [dedupFirst_append_mem hyt]
      · have hyx : y = x := by
          rcases List.mem_cons.mp h with rfl | h2
          · rfl
          · exact absurd h2 hyt
        subst hyx
        rw [dedupFirst_append_new hyt, List.filter_append]
        simp

theorem dedupFirst_append_subset {xs : List ℕ} :
    ∀ {ys : List ℕ}, (∀ y ∈ ys, y ∈ xs) → dedupFirst (xs ++ ys) = dedupFirst xs := by
  intro ys
  induction ys using List.reverseRecOn with
  | nil => intro _; rw [List.append_nil]
  | append_singleton ts y ih =>
      intro h
      rw [← List.append_assoc]
      rw [dedupFirst_append_mem]
      · exact ih (fun z hz => h z (List.mem_append_left _ hz))
      · exact List.mem_append_left _ (h y (List.mem_append_right _ (List.mem_singleton_self y)))

theorem find?_eq_some_of_nodup {l : List Candidate} (hnd : (idsOf l).Nodup)
    {c : Candidate} (hc : c ∈ l) :
    l.find? (fun x => x.docId = c.docId) = some c := by
  induction l with
  | nil => cases hc
  | cons a t ih =>
      have hnd' : a.docId ∉ idsOf t ∧ (idsOf t).Nodup := by
        rw [show idsOf (a :: t) = a.docId :: idsOf t from rfl, List.nodup_cons] at hnd
        exact hnd
      by_cases h : a.docId = c.docId
      · have hca : c = a := by
          rcases List.mem_cons.mp hc with rfl | hct
          · rfl
          · exact absurd (by rw [h]; exact List.mem_map_of_mem _ hct) hnd'.1
        subst hca
        exact List.find?_cons_of_pos _ (by simp [h])
      · have hct : c ∈ t := by
          rcases List.mem_cons.mp hc with rfl | h2
          · exact absurd rfl h
          · exact h2
        rw [List.find?_cons_of_neg _ (by simpa using h)]
        exact ih hnd'.2 hct

theorem lookupScore_eq {l : List Candidate} (hnd : (idsOf l).Nodup)
    {c : Candidate} (hc : c ∈ l) : lookupScore l c.docId = some c.score := by
  unfold lookupScore
  rw [find?_eq_some_of_nodup hnd hc]
  rfl

theorem sorted_map_fusedLE (l : List Candidate) (g : Candidate → FusedResult)
    (hg : ∀ a ∈ l, ∀ b ∈ l, candLE a b → fusedLE (g a) (g b)) :
    List.Sorted fusedLE ((List.insertionSort candLE l).map g) := by
  have hs : List.Sorted candLE (List.insertionSort candLE l) :=
    List.sorted_insertionSort candLE l
  have hmem : ∀ x ∈ List.insertionSort candLE l, x ∈ l := fun x hx =>
    (List.perm_insertionSort candLE l).mem_iff.mp hx
  apply List.pairwise_map.mpr
  exact hs.imp_of_mem (fun {a b} ha hb hab => hg a (hmem a ha) b (hmem b hb) hab)

theorem insertionSort_fusedLE_eq (A : List FusedResult) (l : List Candidate)
    (g : Candidate → FusedResult) (hperm : List.Perm A (l.map g))
    (hg : ∀ a ∈ l, ∀ b ∈ l, candLE a b → fusedLE (g a) (g b)) :
    List.insertionSort fusedLE A = (List.insertionSort candLE l).map g := by
  have hperm2 : List.Perm (List.insertionSort fusedLE A)
      ((List.insertionSort candLE l).map g) :=
    (List.perm_insertionSort fusedLE A).trans
      (hperm.trans ((List.perm_insertionSort candLE l).map g).symm)
  exact @List.eq_of_perm_of_sorted FusedResult fusedLE _ _ _ hperm2
    (List.sorted_insertionSort fusedLE A) (sorted_map_fusedLE l g hg)

theorem candLE_to_fusedLE (l : List Candidate) (g : Candidate → FusedResult)
    (hscore : ∀ c ∈ l, (g c).score = minmaxNorm (scoresOf l) c.score)
    (hnd : (scoresOf l).Nodup) :
    ∀ a ∈ l, ∀ b ∈ l, candLE a b → fusedLE (g a) (g b) := by
  intro a ha b hb hab
  rcases hab with hlt | ⟨heq, _⟩
  · refine Or.inl ?_
    rw [hscore a ha, hscore b hb]
    exact minmaxNorm_strictMono (scoresOf l) (List.mem_map_of_mem _ ha)
      (List.mem_map_of_mem _ hb) hlt
  · have hba : a = b := List.inj_on_of_nodup_map hnd ha hb heq
    subst hba
    exact Or.inr ⟨rfl, Or.inr ⟨rfl, le_refl _⟩⟩

/-- C5 counterexample: under weighted-blend fusion with alpha = 0, a
    vector candidate absent from the lexical list is scored 0 on the
    missing side and its tie against the weakest lexical document is
    broken by its vector similarity, so the fused ranking [0, 2, 1]
    differs from the lexical-only ranking [0, 1]; this falsifies the claim
    for arbitrary candidate lists. -/
theorem c5_alpha_zero_not_lexical_order :
    (alphaFuse [⟨0, 2⟩, ⟨1, 1⟩] [⟨2, 9 / 10⟩] 0 3).map FusedResult.docId = [0, 2, 1] ∧
    candRanking [⟨0, 2⟩, ⟨1, 1⟩] 3 = [0, 1] ∧
    ([0, 2, 1] : List ℕ) ≠ [0, 1] :=
  ⟨by decide, by decide, by decide⟩

/-- C5 amended: under weighted-blend fusion, when the two candidate lists
    rank the same set of documents, each list has pairwise distinct doc
    ids and pairwise distinct scores, alpha = 0 makes the fused doc id
    sequence equal to the lexical-only ranking and alpha = 1 makes it
    equal to the vector-only ranking, for every top_k. -/
theorem c5_alpha_endpoints (lex vec : List Candidate) (top_k : ℕ)
    (hnl : (idsOf lex).Nodup) (hnv : (idsOf vec).Nodup)
    (hsl : (scoresOf lex).Nodup) (hsv : (scoresOf vec).Nodup)
    (hset : ∀ d, d ∈ idsOf lex ↔ d ∈ idsOf vec) :
    (alphaFuse lex vec 0 top_k).map FusedResult.docId = candRanking lex top_k ∧
    (alphaFuse lex vec 1 top_k).map FusedResult.docId = candRanking vec top_k := by
  have huniv : dedupFirst (idsOf lex ++ idsOf vec) = idsOf lex := by
    rw [dedupFirst_append_subset (fun y hy => (hset y).mpr hy)]
    exact dedupFirst_of_nodup hnl
  constructor
  · have hmap0 : (idsOf lex).map (fuseEntry lex vec 0) =
        lex.map (fun c => (⟨c.docId, minmaxNorm (scoresOf lex) c.score,
          (lookupScore vec c.docId).getD 0⟩ : FusedResult)) := by
      show (lex.map Candidate.docId).map (fuseEntry lex vec 0) = _
      rw [List.map_map]
      apply List.map_congr_left
      intro c hc
      show fuseEntry lex vec 0 c.docId = _
      unfold fuseEntry
      rw [lookupScore_eq hnl hc]
      simp only [zero_mul, sub_zero, one_mul, zero_add]
    have hsorted0 := insertionSort_fusedLE_eq
      ((dedupFirst (idsOf lex ++ idsOf vec)).map (fuseEntry lex vec 0)) lex
      (fun c => (⟨c.docId, minmaxNorm (scoresOf lex) c.score,
        (lookupScore vec c.docId).getD 0⟩ : FusedResult))
      (by rw [huniv, hmap0])
      (candLE_to_fusedLE lex _ (fun c _ => rfl) hsl)
    calc (alphaFuse lex vec 0 top_k).map FusedResult.docId
        = (((List.insertionSort candLE lex).map
            (fun c => (⟨c.docId, minmaxNorm (scoresOf lex) c.score,
              (lookupScore vec c.docId).getD 0⟩ : FusedResult))).take top_k).map
            FusedResult.docId := by
          unfold alphaFuse
          rw [hsorted0]
      _ = (((List.insertionSort candLE lex).map
            (fun c => (⟨c.docId, minmaxNorm (scoresOf lex) c.score,
              (lookupScore vec c.docId).getD 0⟩ : FusedResult))).map
            FusedResult.docId).take top_k := by
          rw [List.map_take]
      _ = ((List.insertionSort candLE lex).map Candidate.docId).take top_k := by
          rw [List.map_map]
          rfl
      _ = candRanking lex top_k := rfl
  · have hperm1 : List.Perm (idsOf lex) (idsOf vec) :=
      (List.perm_ext_iff_of_nodup hnl hnv).mpr hset
    have hmap1 : (idsOf vec).map (fuseEntry lex vec 1) =
        vec.map (fun c => (⟨c.docId, minmaxNorm (scoresOf vec) c.score, c.score⟩ :
          FusedResult)) := by
      show (vec.map Candidate.docId).map (fuseEntry lex vec 1) = _
      rw [List.map_map]
      apply List.map_congr_left
      intro c hc
      show fuseEntry lex vec 1 c.docId = _
      unfold fuseEntry
      rw [lookupScore_eq hnv hc]
      simp only [one_mul, sub_self, zero_mul, add_zero, Option.getD_some]
    have hsorted1 := insertionSort_fusedLE_eq
      ((dedupFirst (idsOf lex ++ idsOf vec)).map (fuseEntry lex vec 1)) vec
      (fun c => (⟨c.docId, minmaxNorm (scoresOf vec) c.score, c.score⟩ : FusedResult))
      (by rw [huniv, ← hmap1]; exact hperm1.map _)
      (candLE_to_fusedLE vec _ (fun c _ => rfl) hsv)
    calc (alphaFuse lex vec 1 top_k).map FusedResult.docId
        = (((List.insertionSort candLE vec).map
            (fun c => (⟨c.docId, minmaxNorm (scoresOf vec) c.score, c.score⟩ :
              FusedResult))).take top_k).map FusedResult.docId := by
          unfold alphaFuse
          rw [hsorted1]
      _ = (((List.insertionSort candLE vec).map
            (fun c => (⟨c.docId, minmaxNorm (scoresOf vec) c.score, c.score⟩ :
              FusedResult))).map FusedResult.docId).take top_k := by
          rw [List.map_take]
      _ = ((List.insertionSort candLE vec).map Candidate.docId).take top_k := by
          rw [List.map_map]
          rfl
      _ = candRanking vec top_k := rfl

theorem c5_alpha_endpoints_witness :
    ((idsOf [⟨0, 2⟩, ⟨1, 1⟩]).Nodup ∧ (idsOf [⟨0, 1⟩, ⟨1, 5⟩]).Nodup ∧
      (scoresOf [⟨0, 2⟩, ⟨1, 1⟩]).Nodup ∧ (scoresOf [⟨0, 1⟩, ⟨1, 5⟩]).Nodup ∧
      (∀ d, d ∈ idsOf [⟨0, 2⟩, ⟨1, 1⟩] ↔ d ∈ idsOf [⟨0, 1⟩, ⟨1, 5⟩])) ∧
    ((alphaFuse [⟨0, 2⟩, ⟨1, 1⟩] [⟨0, 1⟩, ⟨1, 5⟩] 0 3).map FusedResult.docId =
        candRanking [⟨0, 2⟩, ⟨1, 1⟩] 3 ∧
      (alphaFuse [⟨0, 2⟩, ⟨1, 1⟩] [⟨0, 1⟩, ⟨1, 5⟩] 1 3).map FusedResult.docId =
        candRanking [⟨0, 1⟩, ⟨1, 5⟩] 3) :=
  ⟨⟨by decide, by decide, by decide, by decide, fun d => Iff.rfl⟩,
    c5_alpha_endpoints [⟨0, 2⟩, ⟨1, 1⟩] [⟨0, 1⟩, ⟨1, 5⟩] 3 (by decide) (by decide)
      (by decide) (by decide) (fun d => Iff.rfl)⟩
